import Mathlib

/-!
# Verification of the go-flake ID generator (`src/flake.go`)

Shallow embedding of the instantiable generator from `flake.go`
(package `flake`): the `Gen` state machine (`NewGen`, `NextID`,
`GenMulti`) and the transport codec (`ToBytes`, `ToString`,
`FromString` over padded URL-safe base64).

Modelling conventions:
* Go `int64` values are modelled as `Int`; where the code truncates to
  64 bits (the cast to `FlakeID`, which is `uint64`) we take the
  two's-complement bit pattern explicitly, via `toUInt64`.
* Go `int64` bitwise `x & sequenceMask` (mask of the low 13 bits of the
  two's-complement representation) is `x % 8192` on `Int` (Lean's `%`
  on `Int` is `emod`, which returns the non-negative representative).
* `time.Now()` is modelled by passing the sampled millisecond values
  explicitly: each `NextID` call receives the first sample `ts0` and
  the (possibly empty) list `more` of re-samples its
  wait-for-clock-advance loop would observe, in order.  A loop that
  never sees the clock advance blocks forever in Go; with a finite
  sample list this is modelled as `none`.
* Strings are lists of character codes (`List Nat`).
-/

namespace GoFlake

/-- `workerIDBits = uint64(10)` from `flake.go`. -/
def workerIDBits : Nat := 10

/-- `sequenceBits = uint64(13)` from `flake.go` ("do not use standard 12 bits"). -/
def sequenceBits : Nat := 13

/-- `maxWorkerID = int64(-1) ^ (int64(-1) << workerIDBits)`, i.e. `2^10 - 1 = 1023`. -/
def maxWorkerID : Int := 2 ^ workerIDBits - 1

/-- `workerIDShift = sequenceBits`. -/
def workerIDShift : Nat := sequenceBits

/-- `timestampLeftShift = sequenceBits + workerIDBits`. -/
def timestampLeftShift : Nat := sequenceBits + workerIDBits

/-- `sequenceMask = int64(-1) ^ (int64(-1) << sequenceBits)`, i.e. `2^13 - 1 = 8191`. -/
def sequenceMask : Int := 2 ^ sequenceBits - 1

/-- A `FlakeID` is a `uint64`; we model it as a `Nat` (< 2^64 for every
value the code produces). -/
abbrev FlakeID := Nat

/-- The two's-complement 64-bit pattern of an `int64` value, as a `Nat`:
this is what Go's cast `uint64(x)` / `FlakeID(x)` yields. -/
def toUInt64 (x : Int) : Nat := (x % (2 ^ 64 : Int)).toNat

/-- Generator state, from `flake.go`:
`seq`, `ts` (last timestamp in milliseconds), `fepoch`, `workerID`,
all `int64`.  The `sync.Mutex` serialises calls; the lock itself has no
data content, so the state record omits it. -/
structure Gen where
  seq : Int
  ts : Int
  fepoch : Int
  workerID : Int
  deriving Repr, DecidableEq

/-- Construction errors of `NewGen` (returned as `fmt.Errorf` values in Go):
worker id out of range, or epoch ahead of the sampled clock. -/
inductive NewGenError where
  | invalidWorkerID
  | epochInFuture
  deriving Repr, DecidableEq

/-- `NewGen(workerID, fepoch int64)` from `flake.go`.  `now` is the
millisecond value sampled via `getTsInfo()` inside the constructor. -/
def NewGen (workerID fepoch now : Int) : Except NewGenError Gen :=
  if workerID < 0 ∨ workerID > maxWorkerID then
    .error .invalidWorkerID
  else if now < fepoch then
    .error .epochInFuture
  else
    .ok { seq := -1
          ts := -1
          fepoch := if fepoch ≤ 0 then 1234567891011 else fepoch
          workerID := workerID }

/-- The packed identifier
`FlakeID((0 | (ts-fepoch)<<timestampLeftShift) | (workerID<<workerIDShift) | seq)`
from the return expression of `NextID`.  Each `int64` operand is taken
to its 64-bit two's-complement pattern; `<<` on `int64` keeps the low
64 bits of the shifted pattern; `|` on patterns is `Nat.lor`. -/
def packID (ts fepoch workerID seq : Int) : Nat :=
  ((toUInt64 (ts - fepoch) <<< timestampLeftShift) % 2 ^ 64) |||
    ((toUInt64 workerID <<< workerIDShift) % 2 ^ 64) |||
    toUInt64 seq

/-- The `for ts <= lastTs { time.Sleep(...); ts, rem = getTsInfo() }`
loop of `NextID`: starting from the current sample `ts`, keep
re-sampling (consuming `more`) until the sample exceeds `lastTs`.
`none` models the loop never terminating (finite sample list
exhausted with the clock still not past `lastTs`). -/
def waitAdvance (lastTs : Int) : Int → List Int → Option Int
  | ts, more =>
    if lastTs < ts then some ts
    else
      match more with
      | [] => none
      | t :: rest => waitAdvance lastTs t rest

/-- `(g *Gen) NextID() FlakeID` from `flake.go`.  `ts0` is the sample
`ts, rem := getTsInfo()` taken at the top of the call, `more` the
re-samples available to the exhaustion-wait loop.  Returns the updated
generator together with the minted id (`none` only when the wait loop
never sees the clock advance, i.e. the Go code would block forever). -/
def NextID (g : Gen) (ts0 : Int) (more : List Int) : Option (Gen × Nat) :=
  if ts0 = g.ts then
    -- case ts == lastTs: seq = (seq + 1) & sequenceMask,
    -- and when the masked increment wraps to 0, wait for the clock
    if (g.seq + 1) % (sequenceMask + 1) = 0 then
      -- here seq is 0: the committed and packed sequence is 0
      match waitAdvance g.ts ts0 more with
      | none => none
      | some ts' =>
          some ({ g with ts := ts', seq := 0 },
                packID ts' g.fepoch g.workerID 0)
    else
      some ({ g with ts := ts0, seq := (g.seq + 1) % (sequenceMask + 1) },
            packID ts0 g.fepoch g.workerID ((g.seq + 1) % (sequenceMask + 1)))
  else
    -- default branch: seq = 0
    some ({ g with ts := ts0, seq := 0 },
          packID ts0 g.fepoch g.workerID 0)

/-- The id determined by a generator's committed state: the value the
most recent `NextID` call returned (for a primed generator). -/
def idOf (g : Gen) : Nat := packID g.ts g.fepoch g.workerID g.seq

/-- Clock input of one `NextID` call: the initial sample and the
re-samples available to the wait loop. -/
abbrev CallInput := Int × List Int

/-- Run `NextID` repeatedly, one call per element of `inputs`,
collecting the returned ids in call order. -/
def nextIDs (g : Gen) : List CallInput → Option (Gen × List Nat)
  | [] => some (g, [])
  | (t, m) :: rest =>
    match NextID g t m with
    | none => none
    | some (g', v) =>
      match nextIDs g' rest with
      | none => none
      | some (gf, ids) => some (gf, v :: ids)

/-- `(id *FlakeID) ToBytes() []byte` from `flake.go`: the eight bytes
`byte(id >> 56), byte(id >> 48), ..., byte(id)` (big-endian).  Go's
`byte(x)` truncation is `% 256`. -/
def ToBytes (id : Nat) : List Nat :=
  [(id >>> 56) % 256, (id >>> 48) % 256, (id >>> 40) % 256,
   (id >>> 32) % 256, (id >>> 24) % 256, (id >>> 16) % 256,
   (id >>> 8) % 256, id % 256]

/-- `(g *Gen) GenMulti(n uint) []byte` from `flake.go`: mints one id per
call and appends its eight big-endian bytes (written inline in the Go
code, with the same shifts as `ToBytes`).  The call count `n` is
`inputs.length`; each element carries that call's clock samples. -/
def GenMulti (g : Gen) : List CallInput → Option (Gen × List Nat)
  | [] => some (g, [])
  | (t, m) :: rest =>
    match NextID g t m with
    | none => none
    | some (g', id) =>
      match GenMulti g' rest with
      | none => none
      | some (gf, bs) =>
        some (gf,
          (id >>> 56) % 256 :: (id >>> 48) % 256 :: (id >>> 40) % 256 ::
          (id >>> 32) % 256 :: (id >>> 24) % 256 :: (id >>> 16) % 256 ::
          (id >>> 8) % 256 :: id % 256 :: bs)

/-- Index → character code of Go's `base64.URLEncoding` alphabet
`"ABCDEFGHIJKLMNOPQRSTUVWXYZabcdefghijklmnopqrstuvwxyz0123456789-_"`. -/
def b64EncChar (d : Nat) : Nat :=
  if d < 26 then 65 + d
  else if d < 52 then 97 + (d - 26)
  else if d < 62 then 48 + (d - 52)
  else if d = 62 then 45
  else 95

/-- Character code → 6-bit value: the `decodeMap` of `base64.URLEncoding`
(`none` = `0xff`, invalid). -/
def b64DecChar (c : Nat) : Option Nat :=
  if 65 ≤ c ∧ c ≤ 90 then some (c - 65)
  else if 97 ≤ c ∧ c ≤ 122 then some (26 + (c - 97))
  else if 48 ≤ c ∧ c ≤ 57 then some (52 + (c - 48))
  else if c = 45 then some 62
  else if c = 95 then some 63
  else none

/-- `base64.URLEncoding.EncodeToString` on a byte list: three bytes per
quantum yield four alphabet characters; a final 2-byte (resp. 1-byte)
remainder yields three (resp. two) characters plus `'='` padding
(code 61). -/
def b64Encode : List Nat → List Nat
  | b0 :: b1 :: b2 :: rest =>
      b64EncChar (b0 >>> 2) ::
      b64EncChar (((b0 &&& 3) <<< 4) ||| (b1 >>> 4)) ::
      b64EncChar (((b1 &&& 15) <<< 2) ||| (b2 >>> 6)) ::
      b64EncChar (b2 &&& 63) :: b64Encode rest
  | [b0, b1] =>
      [b64EncChar (b0 >>> 2),
       b64EncChar (((b0 &&& 3) <<< 4) ||| (b1 >>> 4)),
       b64EncChar ((b1 &&& 15) <<< 2), 61]
  | [b0] =>
      [b64EncChar (b0 >>> 2), b64EncChar ((b0 &&& 3) <<< 4), 61, 61]
  | [] => []

/-- The quantum loop of Go's `base64.Encoding.Decode` (padded URL
encoding, newlines already removed): four characters per quantum;
`'='` may appear only as `"=="` after two data characters or as `"="`
after three, and only in the final quantum; any other leftover input
(including a length not a multiple of four) is a `CorruptInputError`,
modelled as `none`. -/
def b64DecQuanta : List Nat → Option (List Nat)
  | [] => some []
  | c0 :: c1 :: c2 :: c3 :: rest =>
    match b64DecChar c0, b64DecChar c1 with
    | some d0, some d1 =>
      match b64DecChar c2 with
      | some d2 =>
        match b64DecChar c3 with
        | some d3 =>
          match b64DecQuanta rest with
          | none => none
          | some bs =>
            some (((d0 <<< 2) ||| (d1 >>> 4)) ::
                  (((d1 &&& 15) <<< 4) ||| (d2 >>> 2)) ::
                  (((d2 &&& 3) <<< 6) ||| d3) :: bs)
        | none =>
          if c3 = 61 ∧ rest = [] then
            some [(d0 <<< 2) ||| (d1 >>> 4),
                  ((d1 &&& 15) <<< 4) ||| (d2 >>> 2)]
          else none
      | none =>
        if c2 = 61 ∧ c3 = 61 ∧ rest = [] then
          some [(d0 <<< 2) ||| (d1 >>> 4)]
        else none
    | _, _ => none
  | _ => none

/-- `base64.URLEncoding.DecodeString`: Go's decoder skips `'\r'`/`'\n'`
(codes 13/10) wherever they occur and otherwise processes strict
four-character quanta. -/
def b64DecodeString (s : List Nat) : Option (List Nat) :=
  b64DecQuanta (s.filter fun c => !(c == 10 || c == 13))

/-- `(id FlakeID) ToString() string` from `flake.go`:
`base64.URLEncoding.EncodeToString(id.ToBytes())`. -/
def ToString (id : Nat) : List Nat :=
  b64Encode (ToBytes id)

/-- Result of `FromString`: Go returns `error` (`err` here) only for a
base64 decode failure; indexing `bs[0]`..`bs[7]` into a shorter decoded
slice is a runtime index-out-of-range panic, modelled as `oob`. -/
inductive DecodeResult where
  | ok (v : Nat)
  | err
  | oob
  deriving Repr, DecidableEq

/-- The `int64` big-endian reconstruction
`(int64(bs[0])<<56) | (int64(bs[1])<<48) | ... | int64(bs[7])` from
`FromString`, followed by the cast to `FlakeID` (`uint64`): each
shifted `int64` contributes its 64-bit two's-complement pattern. -/
def fromBytesVal (b0 b1 b2 b3 b4 b5 b6 b7 : Nat) : Nat :=
  ((b0 <<< 56) % 2 ^ 64) ||| ((b1 <<< 48) % 2 ^ 64) |||
    ((b2 <<< 40) % 2 ^ 64) ||| ((b3 <<< 32) % 2 ^ 64) |||
    ((b4 <<< 24) % 2 ^ 64) ||| ((b5 <<< 16) % 2 ^ 64) |||
    ((b6 <<< 8) % 2 ^ 64) ||| (b7 % 2 ^ 64)

/-- `(id *FlakeID) FromString(s string) error` from `flake.go`: decode
the string and return the decode error if any; otherwise read
`bs[0]`..`bs[7]` — which succeeds with those first eight bytes when at
least eight were decoded (extra bytes beyond the eighth are never
read), and is a runtime index-out-of-range panic (`oob`) when fewer
than eight were. -/
def FromString (s : List Nat) : DecodeResult :=
  match b64DecodeString s with
  | none => .err
  | some (b0 :: b1 :: b2 :: b3 :: b4 :: b5 :: b6 :: b7 :: _) =>
    .ok (fromBytesVal b0 b1 b2 b3 b4 b5 b6 b7)
  | some _ => .oob

/-- Modelled from the spec: `fromBytes(bytes) -> Identifier | Error` has
no standalone counterpart in `flake.go` (`FromString` inlines the
reconstruction); per the spec it fails unless the input is exactly
eight bytes and is otherwise the inverse of `toBytes`. -/
def FromBytes (bs : List Nat) : Option Nat :=
  match bs with
  | [b0, b1, b2, b3, b4, b5, b6, b7] =>
    some (fromBytesVal b0 b1 b2 b3 b4 b5 b6 b7)
  | _ => none

/-- Samples of a whole call sequence, flattened in sampling order. -/
def flatSamples : List CallInput → List Int
  | [] => []
  | (t, m) :: rest => t :: m ++ flatSamples rest

/-- State invariant maintained by the generator: the worker id is in
range, the epoch is positive (`NewGen` substitutes the default epoch
for non-positive inputs), and the generator is either fresh (both
sentinels `-1`) or primed with an in-range committed timestamp and
sequence. -/
def GenInv (g : Gen) : Prop :=
  0 ≤ g.workerID ∧ g.workerID ≤ maxWorkerID ∧ 0 < g.fepoch ∧
    ((g.ts = -1 ∧ g.seq = -1) ∨
      (g.fepoch ≤ g.ts ∧ g.ts < g.fepoch + 2 ^ 41 ∧
        0 ≤ g.seq ∧ g.seq ≤ sequenceMask))

instance (g : Gen) : Decidable (GenInv g) := by
  unfold GenInv; infer_instance

/-! ## Arithmetic bridges for the bitwise operations -/

theorem lor_eq_add (k a b : Nat) (ha : a % 2 ^ k = 0) (hb : b < 2 ^ k) :
    a ||| b = a + b := by
  have h1 : 2 ^ k * (a / 2 ^ k) = a :=
    Nat.mul_div_cancel' (Nat.dvd_of_mod_eq_zero ha)
  calc a ||| b = 2 ^ k * (a / 2 ^ k) ||| b := by rw [h1]
    _ = 2 ^ k * (a / 2 ^ k) + b := (Nat.mul_add_lt_is_or hb _).symm
    _ = a + b := by rw [h1]

theorem and_mask_mod (x k : Nat) : x &&& (2 ^ k - 1) = x % 2 ^ k :=
  Nat.and_pow_two_sub_one_eq_mod x k

theorem and3 (x : Nat) : x &&& 3 = x % 4 := and_mask_mod x 2

theorem and15 (x : Nat) : x &&& 15 = x % 16 := and_mask_mod x 4

theorem and63 (x : Nat) : x &&& 63 = x % 64 := and_mask_mod x 6

theorem and1023 (x : Nat) : x &&& 1023 = x % 1024 := and_mask_mod x 10

theorem and8191 (x : Nat) : x &&& 8191 = x % 8192 := and_mask_mod x 13

theorem toUInt64_of_nonneg {x : Int} (h1 : 0 ≤ x) (h2 : x < 2 ^ 64) :
    toUInt64 x = x.toNat := by
  unfold toUInt64; omega

/-! ## The packed value as plain arithmetic -/

theorem packID_eq {ts fepoch workerID seq : Int}
    (h1 : fepoch ≤ ts) (h2 : ts < fepoch + 2 ^ 41)
    (hw1 : 0 ≤ workerID) (hw2 : workerID ≤ 1023)
    (hs1 : 0 ≤ seq) (hs2 : seq ≤ 8191) :
    packID ts fepoch workerID seq =
      (ts - fepoch).toNat * 2 ^ 23 + workerID.toNat * 2 ^ 13 + seq.toNat := by
  have e1 : toUInt64 (ts - fepoch) = (ts - fepoch).toNat :=
    toUInt64_of_nonneg (by omega) (by omega)
  have e2 : toUInt64 workerID = workerID.toNat :=
    toUInt64_of_nonneg (by omega) (by omega)
  have e3 : toUInt64 seq = seq.toNat := toUInt64_of_nonneg (by omega) (by omega)
  have hn1 : (ts - fepoch).toNat < 2 ^ 41 := by omega
  have hn2 : workerID.toNat ≤ 1023 := by omega
  have hn3 : seq.toNat ≤ 8191 := by omega
  have hshift : timestampLeftShift = 23 := rfl
  have hshift2 : workerIDShift = 13 := rfl
  unfold packID
  rw [hshift, hshift2, e1, e2, e3, Nat.shiftLeft_eq, Nat.shiftLeft_eq,
    Nat.mod_eq_of_lt (by omega), Nat.mod_eq_of_lt (by omega),
    lor_eq_add 23 ((ts - fepoch).toNat * 2 ^ 23) (workerID.toNat * 2 ^ 13)
      (by omega) (by omega),
    lor_eq_add 13 ((ts - fepoch).toNat * 2 ^ 23 + workerID.toNat * 2 ^ 13)
      seq.toNat (by omega) (by omega)]

theorem packID_lt {ts fepoch workerID seq : Int}
    (h1 : fepoch ≤ ts) (h2 : ts < fepoch + 2 ^ 41)
    (hw1 : 0 ≤ workerID) (hw2 : workerID ≤ 1023)
    (hs1 : 0 ≤ seq) (hs2 : seq ≤ 8191)
    {ts' seq' : Int}
    (h1' : fepoch ≤ ts') (h2' : ts' < fepoch + 2 ^ 41)
    (hs1' : 0 ≤ seq') (hs2' : seq' ≤ 8191)
    (hlex : ts < ts' ∨ (ts = ts' ∧ seq < seq')) :
    packID ts fepoch workerID seq < packID ts' fepoch workerID seq' := by
  rw [packID_eq h1 h2 hw1 hw2 hs1 hs2, packID_eq h1' h2' hw1 hw2 hs1' hs2']
  rcases hlex with h | ⟨h, h'⟩ <;> omega

/-! ## Inversion of the mint step -/

theorem sequenceMask_eq : sequenceMask = 8191 := by decide

theorem maxWorkerID_eq : maxWorkerID = 1023 := by decide

theorem waitAdvance_some {lastTs : Int} {more : List Int} :
    ∀ {ts t' : Int}, waitAdvance lastTs ts more = some t' →
      lastTs < t' ∧ (t' = ts ∨ t' ∈ more) := by
  induction more with
  | nil =>
    intro ts t' h
    unfold waitAdvance at h
    split at h
    next hlt =>
      obtain rfl : ts = t' := by simpa using h
      exact ⟨hlt, Or.inl rfl⟩
    next => exact Option.noConfusion h
  | cons t rest ih =>
    intro ts t' h
    unfold waitAdvance at h
    split at h
    next hlt =>
      obtain rfl : ts = t' := by simpa using h
      exact ⟨hlt, Or.inl rfl⟩
    next hlt =>
      obtain ⟨h1, h2⟩ := ih h
      refine ⟨h1, Or.inr ?_⟩
      rcases h2 with rfl | hm
      · exact List.mem_cons_self _ _
      · exact List.mem_cons_of_mem _ hm

/-- One `NextID` call from a well-formed state, with this call's samples
at or after the generator's last-seen timestamp and inside the 41-bit
window: the committed state stays well-formed, the returned value is
the pack of the committed state, and — when the generator was already
primed — the returned value strictly exceeds the previously returned
one, with the committed `(timestamp, sequence)` pair strictly greater
lexicographically. -/
theorem NextID_step {g : Gen} {ts0 : Int} {more : List Int} {g' : Gen} {v : Nat}
    (hInv : GenInv g)
    (hts0 : g.ts ≤ ts0)
    (hr0 : g.fepoch ≤ ts0 ∧ ts0 < g.fepoch + 2 ^ 41)
    (hmore : ∀ t ∈ more, ts0 ≤ t ∧ t < g.fepoch + 2 ^ 41)
    (h : NextID g ts0 more = some (g', v)) :
    (g'.fepoch = g.fepoch ∧ g'.workerID = g.workerID) ∧
      (g.fepoch ≤ g'.ts ∧ g'.ts < g.fepoch + 2 ^ 41 ∧
        0 ≤ g'.seq ∧ g'.seq ≤ sequenceMask) ∧
      (g'.ts = ts0 ∨ g'.ts ∈ more) ∧ ts0 ≤ g'.ts ∧
      v = idOf g' ∧
      (g.fepoch ≤ g.ts →
        idOf g < v ∧ (g.ts < g'.ts ∨ (g.ts = g'.ts ∧ g.seq < g'.seq))) := by
  obtain ⟨hw1, hw2, hf, hcase⟩ := hInv
  rw [maxWorkerID_eq] at hw2
  rw [sequenceMask_eq]
  unfold NextID at h
  rw [sequenceMask_eq] at h
  by_cases hts : ts0 = g.ts
  · -- same millisecond as the committed timestamp: g must be primed
    have hprime : g.fepoch ≤ g.ts ∧ g.ts < g.fepoch + 2 ^ 41 ∧
        0 ≤ g.seq ∧ g.seq ≤ 8191 := by
      rcases hcase with ⟨h1, _⟩ | hp
      · omega
      · rw [sequenceMask_eq] at hp; exact hp
    obtain ⟨hp1, hp2, hp3, hp4⟩ := hprime
    rw [if_pos hts] at h
    by_cases hseq : (g.seq + 1) % (8191 + 1) = 0
    · -- sequence wrapped: wait for the clock to advance
      rw [if_pos hseq] at h
      cases hw : waitAdvance g.ts ts0 more with
      | none => rw [hw] at h; simp at h
      | some ts' =>
        rw [hw] at h
        obtain ⟨rfl, rfl⟩ : ({ g with ts := ts', seq := 0 } = g' ∧
            packID ts' g.fepoch g.workerID 0 = v) := by simpa using h
        dsimp only
        obtain ⟨hlt, hmem⟩ := waitAdvance_some hw
        have hmem' : ts' ∈ more := by
          rcases hmem with rfl | hm
          · omega
          · exact hm
        obtain ⟨hb1, hb2⟩ := hmore ts' hmem'
        refine ⟨⟨rfl, rfl⟩, ⟨by omega, by omega, by omega, by omega⟩,
          Or.inr hmem', by omega, rfl, fun _ => ?_⟩
        exact ⟨packID_lt hp1 hp2 hw1 hw2 hp3 hp4 (by omega) (by omega)
            (by omega) (by omega) (Or.inl hlt), Or.inl hlt⟩
    · -- sequence incremented within the same millisecond
      rw [if_neg hseq] at h
      have hslt : g.seq < 8191 := by omega
      have hseq' : (g.seq + 1) % (8191 + 1) = g.seq + 1 := by omega
      rw [hseq'] at h
      obtain ⟨rfl, rfl⟩ : ({ g with ts := ts0, seq := g.seq + 1 } = g' ∧
          packID ts0 g.fepoch g.workerID (g.seq + 1) = v) := by simpa using h
      dsimp only
      refine ⟨⟨rfl, rfl⟩, ⟨by omega, by omega, by omega, by omega⟩,
        Or.inl rfl, le_refl _, rfl, fun _ => ?_⟩
      constructor
      · exact packID_lt hp1 hp2 hw1 hw2 hp3 hp4 (by omega) (by omega)
          (by omega) (by omega) (Or.inr ⟨by omega, by omega⟩)
      · exact Or.inr ⟨by omega, by omega⟩
  · -- a different (here: strictly later) sample: sequence resets to 0
    rw [if_neg hts] at h
    obtain ⟨rfl, rfl⟩ : ({ g with ts := ts0, seq := 0 } = g' ∧
        packID ts0 g.fepoch g.workerID 0 = v) := by simpa using h
    dsimp only
    refine ⟨⟨rfl, rfl⟩, ⟨by omega, by omega, by omega, by omega⟩,
      Or.inl rfl, le_refl _, rfl, fun hpr => ?_⟩
    have hprime : g.fepoch ≤ g.ts ∧ g.ts < g.fepoch + 2 ^ 41 ∧
        0 ≤ g.seq ∧ g.seq ≤ 8191 := by
      rcases hcase with ⟨h1, _⟩ | hp
      · omega
      · rw [sequenceMask_eq] at hp; exact hp
    obtain ⟨hp1, hp2, hp3, hp4⟩ := hprime
    constructor
    · exact packID_lt hp1 hp2 hw1 hw2 hp3 hp4 (by omega) (by omega)
        (by omega) (by omega) (Or.inl (by omega))
    · exact Or.inl (by omega)

/-- Chained `NextID` calls from a well-formed state, with the clock
samples non-decreasing in sampling order (and never behind the
generator's last-seen timestamp) and inside the 41-bit window: the
final state is well-formed, the returned ids are strictly increasing
in call order, and every returned id strictly exceeds the id of the
starting state when that state was already primed. -/
theorem nextIDs_props {inputs : List CallInput} :
    ∀ {g g' : Gen} {ids : List Nat},
      GenInv g →
      List.Pairwise (· ≤ ·) (g.ts :: flatSamples inputs) →
      (∀ t ∈ flatSamples inputs, g.fepoch ≤ t ∧ t < g.fepoch + 2 ^ 41) →
      nextIDs g inputs = some (g', ids) →
      GenInv g' ∧ List.Chain' (· < ·) ids ∧
        (∀ v ∈ ids, g.fepoch ≤ g.ts → idOf g < v) := by
  induction inputs with
  | nil =>
    intro g g' ids hInv hpw hrange h
    obtain ⟨rfl, rfl⟩ : (g = g' ∧ [] = ids) := by
      simpa [nextIDs] using h
    exact ⟨hInv, List.chain'_nil, by simp⟩
  | cons p rest ih =>
    obtain ⟨t, m⟩ := p
    intro g g' ids hInv hpw hrange h
    rw [show flatSamples ((t, m) :: rest) = t :: (m ++ flatSamples rest)
      from rfl] at hpw hrange
    cases hN : NextID g t m with
    | none => simp [nextIDs, hN] at h
    | some r =>
      obtain ⟨g1, v⟩ := r
      cases hR : nextIDs g1 rest with
      | none => simp [nextIDs, hN, hR] at h
      | some r2 =>
        obtain ⟨gf, ids1⟩ := r2
        simp only [nextIDs, hN, hR, Option.some.injEq, Prod.mk.injEq] at h
        obtain ⟨rfl, rfl⟩ := h
        rw [List.pairwise_cons] at hpw
        obtain ⟨hg_le, hpw2⟩ := hpw
        rw [List.pairwise_cons] at hpw2
        obtain ⟨ht_le, hpw3⟩ := hpw2
        rw [List.pairwise_append] at hpw3
        obtain ⟨hpwm, hpwrest, hcross⟩ := hpw3
        have hstep := NextID_step hInv (hg_le t (by simp)) (hrange t (by simp))
          (fun x hx => ⟨ht_le x (List.mem_append_left _ hx),
            (hrange x (by simp [hx])).2⟩) hN
        obtain ⟨⟨hfe, hwid⟩, ⟨hb1, hb2, hb3, hb4⟩, hmem, htle, hveq, hstrict⟩ := hstep
        have hInv1 : GenInv g1 := by
          obtain ⟨a1, a2, a3, _⟩ := hInv
          exact ⟨by rw [hwid]; exact a1, by rw [hwid]; exact a2,
            by rw [hfe]; exact a3,
            Or.inr ⟨by rw [hfe]; exact hb1, by rw [hfe]; exact hb2, hb3, hb4⟩⟩
        have hprime1 : g1.fepoch ≤ g1.ts := by rw [hfe]; exact hb1
        have hts1_le : ∀ x ∈ flatSamples rest, g1.ts ≤ x := by
          intro x hx
          rcases hmem with he | hm
          · rw [he]; exact ht_le x (List.mem_append_right _ hx)
          · exact hcross g1.ts hm x hx
        have hpw1 : List.Pairwise (· ≤ ·) (g1.ts :: flatSamples rest) :=
          List.pairwise_cons.mpr ⟨hts1_le, hpwrest⟩
        have hrange1 : ∀ x ∈ flatSamples rest,
            g1.fepoch ≤ x ∧ x < g1.fepoch + 2 ^ 41 := by
          intro x hx
          rw [hfe]
          exact hrange x (by simp [hx])
        obtain ⟨hInvf, hchain1, hall1⟩ := ih hInv1 hpw1 hrange1 hR
        refine ⟨hInvf, ?_, ?_⟩
        · rw [List.chain'_cons']
          refine ⟨?_, hchain1⟩
          intro y hy
          have hy' : y ∈ ids1 := List.mem_of_mem_head? hy
          have h2 := hall1 y hy' hprime1
          omega
        · intro v' hv' hpr
          rcases List.mem_cons.mp hv' with rfl | hv1
          · exact (hstrict hpr).1
          · have h1 := (hstrict hpr).1
            have h2 := hall1 v' hv1 hprime1
            omega

theorem NextID_inv {g : Gen} {ts0 : Int} {more : List Int} {g' : Gen} {v : Nat}
    (h : NextID g ts0 more = some (g', v)) :
    g'.fepoch = g.fepoch ∧ g'.workerID = g.workerID ∧
      0 ≤ g'.seq ∧ g'.seq ≤ 8191 ∧
      v = packID g'.ts g.fepoch g.workerID g'.seq := by
  unfold NextID at h
  rw [sequenceMask_eq] at h
  by_cases hts : ts0 = g.ts
  · rw [if_pos hts] at h
    by_cases hseq : (g.seq + 1) % (8191 + 1) = 0
    · rw [if_pos hseq] at h
      cases hw : waitAdvance g.ts ts0 more with
      | none => rw [hw] at h; exact Option.noConfusion h
      | some ts' =>
        rw [hw] at h
        obtain ⟨rfl, rfl⟩ : ({ g with ts := ts', seq := 0 } = g' ∧
            packID ts' g.fepoch g.workerID 0 = v) := by simpa using h
        dsimp only
        exact ⟨rfl, rfl, by omega, by omega, rfl⟩
    · rw [if_neg hseq] at h
      obtain ⟨rfl, rfl⟩ : ({ g with ts := ts0, seq := (g.seq + 1) % (8191 + 1) } = g' ∧
          packID ts0 g.fepoch g.workerID ((g.seq + 1) % (8191 + 1)) = v) := by
        simpa using h
      dsimp only
      exact ⟨rfl, rfl, by omega, by omega, rfl⟩
  · rw [if_neg hts] at h
    obtain ⟨rfl, rfl⟩ : ({ g with ts := ts0, seq := 0 } = g' ∧
        packID ts0 g.fepoch g.workerID 0 = v) := by simpa using h
    dsimp only
    exact ⟨rfl, rfl, by omega, by omega, rfl⟩

/-! ## Claims -/

/-- C1: For a single `Gen` instance whose sampled clock is
non-decreasing across calls (never behind the generator's own
last-seen timestamp, and within the 41-bit timestamp window), every
sequence of successive `NextID` calls returns strictly increasing
64-bit values, so no two calls ever return the same value. -/
theorem nextIDs_strictly_increasing {g g' : Gen} {inputs : List CallInput}
    {ids : List Nat}
    (hInv : GenInv g)
    (hpw : List.Pairwise (· ≤ ·) (g.ts :: flatSamples inputs))
    (hrange : ∀ t ∈ flatSamples inputs, g.fepoch ≤ t ∧ t < g.fepoch + 2 ^ 41)
    (h : nextIDs g inputs = some (g', ids)) :
    List.Chain' (· < ·) ids ∧ List.Pairwise (· ≠ ·) ids := by
  obtain ⟨-, hchain, -⟩ := nextIDs_props hInv hpw hrange h
  exact ⟨hchain, (List.chain'_iff_pairwise.mp hchain).imp Nat.ne_of_lt⟩

theorem nextIDs_strictly_increasing_witness :
    nextIDs ⟨-1, -1, 1234567891011, 123⟩
        [(1234567891012, []), (1234567891012, []), (1234567891013, [])] =
      some (⟨0, 1234567891013, 1234567891011, 123⟩,
        [9396224, 9396225, 17784832]) ∧
    List.Chain' (· < ·) [9396224, 9396225, 17784832] ∧
    List.Pairwise (· ≠ ·) [9396224, 9396225, 17784832] :=
  ⟨by decide,
    @nextIDs_strictly_increasing ⟨-1, -1, 1234567891011, 123⟩
      ⟨0, 1234567891013, 1234567891011, 123⟩
      [(1234567891012, []), (1234567891012, []), (1234567891013, [])]
      [9396224, 9396225, 17784832]
      (by decide) (by decide) (by decide) (by decide)⟩

/-- C9: `NextID`'s entire read-modify-write sequence runs under the
generator's mutex, so any concurrent execution is some serialization
into successive calls; for every such serialized call sequence (with a
non-decreasing in-window clock) no two calls return the same
Identifier. -/
theorem nextIDs_no_duplicates {g g' : Gen} {inputs : List CallInput}
    {ids : List Nat}
    (hInv : GenInv g)
    (hpw : List.Pairwise (· ≤ ·) (g.ts :: flatSamples inputs))
    (hrange : ∀ t ∈ flatSamples inputs, g.fepoch ≤ t ∧ t < g.fepoch + 2 ^ 41)
    (h : nextIDs g inputs = some (g', ids)) :
    List.Pairwise (· ≠ ·) ids := by
  obtain ⟨-, hchain, -⟩ := nextIDs_props hInv hpw hrange h
  exact (List.chain'_iff_pairwise.mp hchain).imp Nat.ne_of_lt

theorem nextIDs_no_duplicates_witness :
    nextIDs ⟨-1, -1, 1000, 5⟩ [(2000, []), (2000, [])] =
      some (⟨1, 2000, 1000, 5⟩, [8388648960, 8388648961]) ∧
    List.Pairwise (· ≠ ·) [8388648960, 8388648961] :=
  ⟨by decide,
    @nextIDs_no_duplicates ⟨-1, -1, 1000, 5⟩ ⟨1, 2000, 1000, 5⟩
      [(2000, []), (2000, [])] [8388648960, 8388648961]
      (by decide) (by decide) (by decide) (by decide)⟩

/-- C4: Every Identifier minted by `Gen.NextID` equals the packed value
`((now - epoch) << 23) | (workerID << 13) | sequence` for the committed
timestamp `now = g'.ts` and sequence `g'.seq`; under the preconditions
`0 ≤ workerID ≤ 1023` and `0 ≤ now - epoch < 2^41` (the sequence bound
`0 ≤ sequence ≤ 8191` holds automatically) the three fields occupy
disjoint bit ranges and are each exactly recoverable from the value. -/
theorem NextID_packs_fields {g : Gen} {ts0 : Int} {more : List Int}
    {g' : Gen} {v : Nat}
    (h : NextID g ts0 more = some (g', v))
    (hw1 : 0 ≤ g.workerID) (hw2 : g.workerID ≤ 1023)
    (hts1 : g.fepoch ≤ g'.ts) (hts2 : g'.ts < g.fepoch + 2 ^ 41) :
    v = packID g'.ts g.fepoch g.workerID g'.seq ∧
      0 ≤ g'.seq ∧ g'.seq ≤ 8191 ∧
      v = (g'.ts - g.fepoch).toNat * 2 ^ 23 +
            g.workerID.toNat * 2 ^ 13 + g'.seq.toNat ∧
      v >>> 23 = (g'.ts - g.fepoch).toNat ∧
      (v >>> 13) &&& 1023 = g.workerID.toNat ∧
      v &&& 8191 = g'.seq.toNat := by
  obtain ⟨hfe, hwid, hs1, hs2, hv⟩ := NextID_inv h
  have hpe : packID g'.ts g.fepoch g.workerID g'.seq =
      (g'.ts - g.fepoch).toNat * 2 ^ 23 +
        g.workerID.toNat * 2 ^ 13 + g'.seq.toNat :=
    packID_eq hts1 hts2 hw1 hw2 hs1 hs2
  have hd1 : (g'.ts - g.fepoch).toNat < 2 ^ 41 := by omega
  have hd2 : g.workerID.toNat ≤ 1023 := by omega
  have hd3 : g'.seq.toNat ≤ 8191 := by omega
  refine ⟨hv, hs1, hs2, by rw [hv, hpe], ?_, ?_, ?_⟩
  · rw [hv, hpe, Nat.shiftRight_eq_div_pow]
    omega
  · rw [hv, hpe, Nat.shiftRight_eq_div_pow, and1023]
    omega
  · rw [hv, hpe, and8191]
    omega

theorem NextID_packs_fields_witness :
    NextID ⟨-1, -1, 1000, 7⟩ 4000 [] =
      some (⟨0, 4000, 1000, 7⟩, 25165881344) ∧
    (25165881344 : Nat) >>> 23 = 3000 ∧
    ((25165881344 : Nat) >>> 13) &&& 1023 = 7 ∧
    (25165881344 : Nat) &&& 8191 = 0 :=
  ⟨by decide, by
    have hp := @NextID_packs_fields ⟨-1, -1, 1000, 7⟩ 4000 []
      ⟨0, 4000, 1000, 7⟩ 25165881344
      (by decide) (by decide) (by decide) (by decide) (by decide)
    obtain ⟨-, -, -, -, h5, h6, h7⟩ := hp
    refine ⟨?_, ?_, ?_⟩
    · rw [h5]; decide
    · rw [h6]; decide
    · rw [h7]; decide⟩

/-- C5: `NewGen` fails with `InvalidWorkerID` iff the worker id is
outside `[0, 1023]`; for an in-range worker id it fails with
`EpochInFuture` iff the supplied epoch is later than the sampled
wall-clock time; and for an in-range worker id with epoch ≤ now it
succeeds, returning a generator with both sentinels set to `-1`. -/
theorem NewGen_error_conditions (workerID fepoch now : Int) :
    (NewGen workerID fepoch now = .error .invalidWorkerID ↔
      (workerID < 0 ∨ workerID > 1023)) ∧
    (0 ≤ workerID → workerID ≤ 1023 →
      (NewGen workerID fepoch now = .error .epochInFuture ↔ now < fepoch)) ∧
    (0 ≤ workerID → workerID ≤ 1023 → fepoch ≤ now →
      ∃ g : Gen, NewGen workerID fepoch now = .ok g ∧
        g.workerID = workerID ∧ g.ts = -1 ∧ g.seq = -1) := by
  unfold NewGen
  rw [maxWorkerID_eq]
  by_cases hA : workerID < 0 ∨ workerID > 1023
  · rw [if_pos hA]
    refine ⟨⟨fun _ => hA, fun _ => rfl⟩, ?_, ?_⟩
    · intro h1 h2
      exact absurd hA (by omega)
    · intro h1 h2 _
      exact absurd hA (by omega)
  · rw [if_neg hA]
    by_cases hB : now < fepoch
    · rw [if_pos hB]
      refine ⟨⟨fun h => by simp at h, fun hh => absurd hh hA⟩, ?_, ?_⟩
      · intro _ _
        exact ⟨fun _ => hB, fun _ => rfl⟩
      · intro _ _ h3
        omega
    · rw [if_neg hB]
      refine ⟨⟨fun h => by simp at h, fun hh => absurd hh hA⟩, ?_, ?_⟩
      · intro _ _
        exact ⟨fun h => by simp at h, fun hh => absurd hh hB⟩
      · intro _ _ _
        exact ⟨_, rfl, rfl, rfl, rfl⟩

theorem NewGen_error_conditions_witness :
    NewGen 2000 100 200 = .error .invalidWorkerID ∧
    NewGen 123 300 200 = .error .epochInFuture :=
  ⟨(NewGen_error_conditions 2000 100 200).1.mpr (by omega),
    ((NewGen_error_conditions 123 300 200).2.1 (by omega) (by omega)).mpr
      (by omega)⟩

/-- C6: With epoch `1234567891011` and worker id `123`, the first
`NextID` call (at any in-window time `t`) returns an Identifier with
worker field `123` and sequence field `0`; a second call in the same
millisecond returns sequence field `1` with identical timestamp and
worker fields, the two values differ only in the low sequence bits
(the second is exactly the first plus one, hence greater); and in
general a call in the same millisecond with an unexhausted sequence
increments the sequence field by exactly one. -/
theorem scenario_epoch_worker123 (t : Int)
    (h1 : (1234567891011 : Int) ≤ t) (h2 : t < 1234567891011 + 2 ^ 41) :
    NewGen 123 1234567891011 t = .ok ⟨-1, -1, 1234567891011, 123⟩ ∧
    NextID ⟨-1, -1, 1234567891011, 123⟩ t [] =
      some (⟨0, t, 1234567891011, 123⟩, packID t 1234567891011 123 0) ∧
    NextID ⟨0, t, 1234567891011, 123⟩ t [] =
      some (⟨1, t, 1234567891011, 123⟩, packID t 1234567891011 123 1) ∧
    (packID t 1234567891011 123 0 >>> 13) &&& 1023 = 123 ∧
    packID t 1234567891011 123 0 &&& 8191 = 0 ∧
    packID t 1234567891011 123 1 &&& 8191 = 1 ∧
    packID t 1234567891011 123 1 >>> 23 = packID t 1234567891011 123 0 >>> 23 ∧
    packID t 1234567891011 123 1 >>> 13 = packID t 1234567891011 123 0 >>> 13 ∧
    packID t 1234567891011 123 1 = packID t 1234567891011 123 0 + 1 ∧
    packID t 1234567891011 123 0 < packID t 1234567891011 123 1 ∧
    (∀ (g g' : Gen) (v : Nat) (more : List Int), 0 ≤ g.seq → g.seq < 8191 →
      NextID g g.ts more = some (g', v) → g'.ts = g.ts ∧ g'.seq = g.seq + 1) := by
  have pe0 : packID t 1234567891011 123 0 =
      (t - 1234567891011).toNat * 2 ^ 23 + (123 : Int).toNat * 2 ^ 13 +
        (0 : Int).toNat :=
    packID_eq h1 h2 (by omega) (by omega) (by omega) (by omega)
  have pe1 : packID t 1234567891011 123 1 =
      (t - 1234567891011).toNat * 2 ^ 23 + (123 : Int).toNat * 2 ^ 13 +
        (1 : Int).toNat :=
    packID_eq h1 h2 (by omega) (by omega) (by omega) (by omega)
  have hdn : (t - 1234567891011).toNat < 2 ^ 41 := by omega
  refine ⟨?_, ?_, ?_, ?_, ?_, ?_, ?_, ?_, ?_, ?_, ?_⟩
  · unfold NewGen
    rw [if_neg (by rw [maxWorkerID_eq]; omega), if_neg (by omega),
      if_neg (by omega)]
  · unfold NextID
    rw [if_neg (by dsimp only; omega)]
  · unfold NextID
    rw [sequenceMask_eq, if_pos rfl, if_neg (by dsimp only; omega)]
    norm_num
  · rw [pe0, Nat.shiftRight_eq_div_pow, and1023]; omega
  · rw [pe0, and8191]; omega
  · rw [pe1, and8191]; omega
  · rw [pe0, pe1, Nat.shiftRight_eq_div_pow, Nat.shiftRight_eq_div_pow]; omega
  · rw [pe0, pe1, Nat.shiftRight_eq_div_pow, Nat.shiftRight_eq_div_pow]; omega
  · rw [pe0, pe1]; omega
  · rw [pe0, pe1]; omega
  · intro g g' v more hs1 hs2 h
    unfold NextID at h
    rw [sequenceMask_eq, if_pos rfl,
      if_neg (by omega)] at h
    obtain ⟨rfl, rfl⟩ : ({ g with ts := g.ts, seq := (g.seq + 1) % (8191 + 1) } = g' ∧
        packID g.ts g.fepoch g.workerID ((g.seq + 1) % (8191 + 1)) = v) := by
      simpa using h
    dsimp only
    omega

theorem scenario_epoch_worker123_witness :
    NextID ⟨-1, -1, 1234567891011, 123⟩ 1234567891012 [] =
      some (⟨0, 1234567891012, 1234567891011, 123⟩,
        packID 1234567891012 1234567891011 123 0) ∧
    (packID 1234567891012 1234567891011 123 0 >>> 13) &&& 1023 = 123 ∧
    packID 1234567891012 1234567891011 123 0 &&& 8191 = 0 ∧
    packID 1234567891012 1234567891011 123 1 =
      packID 1234567891012 1234567891011 123 0 + 1 := by
  have hs := scenario_epoch_worker123 1234567891012 (by omega) (by omega)
  exact ⟨hs.2.1, hs.2.2.2.1, hs.2.2.2.2.1, hs.2.2.2.2.2.2.2.2.1⟩

/-- C7: `Gen.NextID` never fails and does not reject a regressed clock:
whenever the sampled time differs from the stored `lastTimestamp` —
including a strictly smaller sample, and the first call where the
sentinel `-1` is stored — it resets the sequence to 0, commits the
sample as the new `lastTimestamp`, and returns an Identifier built
from it, so a backwards clock jump can yield a timestamp field below a
previously issued one. -/
theorem NextID_accepts_regressed_clock {g : Gen} {ts0 : Int} (more : List Int)
    (h : ts0 ≠ g.ts) :
    NextID g ts0 more =
      some ({ g with ts := ts0, seq := 0 },
        packID ts0 g.fepoch g.workerID 0) := by
  unfold NextID
  rw [if_neg h]

theorem NextID_accepts_regressed_clock_witness :
    NextID ⟨5, 1005, 1000, 1⟩ 1003 [] =
      some (⟨0, 1003, 1000, 1⟩, packID 1003 1000 1 0) ∧
    packID 1003 1000 1 0 >>> 23 < idOf ⟨5, 1005, 1000, 1⟩ >>> 23 :=
  ⟨NextID_accepts_regressed_clock [] (by decide), by decide⟩

/-! ## Batch minting -/

theorem nextIDs_length {inputs : List CallInput} :
    ∀ {g g' : Gen} {ids : List Nat}, nextIDs g inputs = some (g', ids) →
      ids.length = inputs.length := by
  induction inputs with
  | nil =>
    intro g g' ids h
    obtain ⟨rfl, rfl⟩ : (g = g' ∧ [] = ids) := by simpa [nextIDs] using h
    rfl
  | cons p rest ih =>
    obtain ⟨t, m⟩ := p
    intro g g' ids h
    cases hN : NextID g t m with
    | none => simp [nextIDs, hN] at h
    | some r =>
      obtain ⟨g1, v⟩ := r
      cases hR : nextIDs g1 rest with
      | none => simp [nextIDs, hN, hR] at h
      | some r2 =>
        obtain ⟨gf, ids1⟩ := r2
        simp only [nextIDs, hN, hR, Option.some.injEq, Prod.mk.injEq] at h
        obtain ⟨rfl, rfl⟩ := h
        simp [ih hR]

theorem toBytes_flatten_length (ids : List Nat) :
    ((ids.map ToBytes).flatten).length = 8 * ids.length := by
  induction ids with
  | nil => rfl
  | cons v rest ih =>
    simp only [List.map_cons, List.flatten_cons, List.length_append, ih,
      List.length_cons]
    simp [ToBytes]
    omega

theorem GenMulti_eq_map (g : Gen) (inputs : List CallInput) :
    GenMulti g inputs =
      (nextIDs g inputs).map (fun p => (p.1, (p.2.map ToBytes).flatten)) := by
  induction inputs generalizing g with
  | nil => rfl
  | cons p rest ih =>
    obtain ⟨t, m⟩ := p
    cases hN : NextID g t m with
    | none => simp [GenMulti, nextIDs, hN]
    | some r =>
      obtain ⟨g1, v⟩ := r
      cases hR : nextIDs g1 rest with
      | none =>
        have hG : GenMulti g1 rest = none := by rw [ih g1, hR]; rfl
        simp [GenMulti, nextIDs, hN, hR, hG]
      | some r2 =>
        obtain ⟨gf, ids1⟩ := r2
        have hG : GenMulti g1 rest = some (gf, (ids1.map ToBytes).flatten) := by
          rw [ih g1, hR]; rfl
        simp [GenMulti, nextIDs, hN, hR, hG, ToBytes]

/-- C8: `GenMulti` is observably equivalent to repeated single minting:
on the same per-call clock inputs it returns exactly the concatenation,
in call order, of the 8-byte big-endian encodings (`ToBytes`) of the
ids that the successive `NextID` calls return, and every returned byte
sequence has length `8 * n` for `n` calls. -/
theorem GenMulti_is_batched_nextIDs (g : Gen) (inputs : List CallInput) :
    GenMulti g inputs =
      (nextIDs g inputs).map (fun p => (p.1, (p.2.map ToBytes).flatten)) ∧
    ∀ g' bs, GenMulti g inputs = some (g', bs) →
      bs.length = 8 * inputs.length := by
  refine ⟨GenMulti_eq_map g inputs, ?_⟩
  intro g' bs hG
  rw [GenMulti_eq_map] at hG
  cases hR : nextIDs g inputs with
  | none => rw [hR] at hG; exact Option.noConfusion hG
  | some r =>
    obtain ⟨gf, ids⟩ := r
    rw [hR] at hG
    obtain ⟨rfl, rfl⟩ : (gf = g' ∧ (ids.map ToBytes).flatten = bs) := by
      simpa using hG
    rw [toBytes_flatten_length, nextIDs_length hR]

theorem GenMulti_is_batched_nextIDs_witness :
    GenMulti ⟨-1, -1, 500, 9⟩ [(600, [])] =
      some (⟨0, 600, 500, 9⟩, [0, 0, 0, 0, 50, 1, 32, 0]) ∧
    ([0, 0, 0, 0, 50, 1, 32, 0] : List Nat).length = 8 * 1 := by
  have h := GenMulti_is_batched_nextIDs ⟨-1, -1, 500, 9⟩ [(600, [])]
  exact ⟨by decide, h.2 ⟨0, 600, 500, 9⟩ _ (by decide)⟩

/-- C10: For every 64-bit value, `ToString` returns a string of exactly
12 characters: the 8 bytes of `ToBytes` encode as two full base64
quanta plus one padded quantum. -/
theorem ToString_length (id : Nat) : (ToString id).length = 12 := rfl

/-! ## Base64 character facts and arithmetic forms of the bit packing -/

theorem b64EncChar_decode : ∀ d, d < 64 → b64DecChar (b64EncChar d) = some d := by
  decide

theorem b64EncChar_keep :
    ∀ d, d < 64 → (!(b64EncChar d == 10 || b64EncChar d == 13)) = true := by
  decide

theorem encA (x : Nat) : x >>> 2 = x / 4 := Nat.shiftRight_eq_div_pow x 2

theorem encB (x y : Nat) (hy : y < 256) :
    ((x &&& 3) <<< 4) ||| (y >>> 4) = x % 4 * 16 + y / 16 := by
  rw [and3, Nat.shiftLeft_eq, Nat.shiftRight_eq_div_pow]
  have e : x % 4 * 2 ^ 4 ||| y / 2 ^ 4 = x % 4 * 2 ^ 4 + y / 2 ^ 4 :=
    lor_eq_add 4 _ _ (by omega) (by omega)
  rw [e]
  norm_num

theorem encC (x y : Nat) (hy : y < 256) :
    ((x &&& 15) <<< 2) ||| (y >>> 6) = x % 16 * 4 + y / 64 := by
  rw [and15, Nat.shiftLeft_eq, Nat.shiftRight_eq_div_pow]
  have e : x % 16 * 2 ^ 2 ||| y / 2 ^ 6 = x % 16 * 2 ^ 2 + y / 2 ^ 6 :=
    lor_eq_add 2 _ _ (by omega) (by omega)
  rw [e]
  norm_num

theorem encE (x : Nat) : (x &&& 15) <<< 2 = x % 16 * 4 := by
  rw [and15, Nat.shiftLeft_eq]

theorem decA (d0 d1 : Nat) (h1 : d1 < 64) :
    (d0 <<< 2) ||| (d1 >>> 4) = d0 * 4 + d1 / 16 := by
  rw [Nat.shiftLeft_eq, Nat.shiftRight_eq_div_pow]
  have e : d0 * 2 ^ 2 ||| d1 / 2 ^ 4 = d0 * 2 ^ 2 + d1 / 2 ^ 4 :=
    lor_eq_add 2 _ _ (by omega) (by omega)
  rw [e]
  norm_num

theorem decB (d1 d2 : Nat) (h2 : d2 < 64) :
    ((d1 &&& 15) <<< 4) ||| (d2 >>> 2) = d1 % 16 * 16 + d2 / 4 := by
  rw [and15, Nat.shiftLeft_eq, Nat.shiftRight_eq_div_pow]
  have e : d1 % 16 * 2 ^ 4 ||| d2 / 2 ^ 2 = d1 % 16 * 2 ^ 4 + d2 / 2 ^ 2 :=
    lor_eq_add 4 _ _ (by omega) (by omega)
  rw [e]
  norm_num

theorem decC (d2 d3 : Nat) (h3 : d3 < 64) :
    ((d2 &&& 3) <<< 6) ||| d3 = d2 % 4 * 64 + d3 := by
  rw [and3, Nat.shiftLeft_eq]
  have e : d2 % 4 * 2 ^ 6 ||| d3 = d2 % 4 * 2 ^ 6 + d3 :=
    lor_eq_add 6 _ _ (by omega) (by omega)
  rw [e]
  norm_num

/-- Decoding the encoding of eight bytes (two full quanta and one
two-byte quantum with `"="` padding) recovers exactly those bytes. -/
theorem b64DecodeString_encode8 {b0 b1 b2 b3 b4 b5 b6 b7 : Nat}
    (h0 : b0 < 256) (h1 : b1 < 256) (h2 : b2 < 256) (h3 : b3 < 256)
    (h4 : b4 < 256) (h5 : b5 < 256) (h6 : b6 < 256) (h7 : b7 < 256) :
    b64DecodeString (b64Encode [b0, b1, b2, b3, b4, b5, b6, b7]) =
      some [b0, b1, b2, b3, b4, b5, b6, b7] := by
  simp only [b64Encode]
  rw [encA b0, encA b3, encA b6, encB b0 b1 h1, encB b3 b4 h4, encB b6 b7 h7,
    encC b1 b2 h2, encC b4 b5 h5, and63 b2, and63 b5, encE b7]
  unfold b64DecodeString
  have k0 := b64EncChar_keep (b0 / 4) (by omega)
  have k1 := b64EncChar_keep (b0 % 4 * 16 + b1 / 16) (by omega)
  have k2 := b64EncChar_keep (b1 % 16 * 4 + b2 / 64) (by omega)
  have k3 := b64EncChar_keep (b2 % 64) (by omega)
  have k4 := b64EncChar_keep (b3 / 4) (by omega)
  have k5 := b64EncChar_keep (b3 % 4 * 16 + b4 / 16) (by omega)
  have k6 := b64EncChar_keep (b4 % 16 * 4 + b5 / 64) (by omega)
  have k7 := b64EncChar_keep (b5 % 64) (by omega)
  have k8 := b64EncChar_keep (b6 / 4) (by omega)
  have k9 := b64EncChar_keep (b6 % 4 * 16 + b7 / 16) (by omega)
  have k10 := b64EncChar_keep (b7 % 16 * 4) (by omega)
  simp only [List.filter_cons, List.filter_nil, k0, k1, k2, k3, k4, k5, k6,
    k7, k8, k9, k10, if_true, show (!((61 : Nat) == 10 || (61 : Nat) == 13)) = true
      from rfl]
  have f0 := b64EncChar_decode (b0 / 4) (by omega)
  have f1 := b64EncChar_decode (b0 % 4 * 16 + b1 / 16) (by omega)
  have f2 := b64EncChar_decode (b1 % 16 * 4 + b2 / 64) (by omega)
  have f3 := b64EncChar_decode (b2 % 64) (by omega)
  have f4 := b64EncChar_decode (b3 / 4) (by omega)
  have f5 := b64EncChar_decode (b3 % 4 * 16 + b4 / 16) (by omega)
  have f6 := b64EncChar_decode (b4 % 16 * 4 + b5 / 64) (by omega)
  have f7 := b64EncChar_decode (b5 % 64) (by omega)
  have f8 := b64EncChar_decode (b6 / 4) (by omega)
  have f9 := b64EncChar_decode (b6 % 4 * 16 + b7 / 16) (by omega)
  have f10 := b64EncChar_decode (b7 % 16 * 4) (by omega)
  simp only [b64DecQuanta, f0, f1, f2, f3, f4, f5, f6, f7, f8, f9, f10,
    show b64DecChar 61 = none from rfl, eq_self_iff_true, and_self, if_true]
  rw [decA (b0 / 4) (b0 % 4 * 16 + b1 / 16) (by omega),
    decB (b0 % 4 * 16 + b1 / 16) (b1 % 16 * 4 + b2 / 64) (by omega),
    decC (b1 % 16 * 4 + b2 / 64) (b2 % 64) (by omega),
    decA (b3 / 4) (b3 % 4 * 16 + b4 / 16) (by omega),
    decB (b3 % 4 * 16 + b4 / 16) (b4 % 16 * 4 + b5 / 64) (by omega),
    decC (b4 % 16 * 4 + b5 / 64) (b5 % 64) (by omega),
    decA (b6 / 4) (b6 % 4 * 16 + b7 / 16) (by omega),
    decB (b6 % 4 * 16 + b7 / 16) (b7 % 16 * 4) (by omega)]
  simp only [Option.some.injEq, List.cons.injEq, and_true]
  omega

/-- The big-endian reconstruction of `FromString` applied to the bytes
of `ToBytes` gives back the original 64-bit value. -/
theorem fromBytesVal_toBytes (id : Nat) (h : id < 2 ^ 64) :
    fromBytesVal ((id >>> 56) % 256) ((id >>> 48) % 256) ((id >>> 40) % 256)
      ((id >>> 32) % 256) ((id >>> 24) % 256) ((id >>> 16) % 256)
      ((id >>> 8) % 256) (id % 256) = id := by
  rw [Nat.shiftRight_eq_div_pow id 56, Nat.shiftRight_eq_div_pow id 48,
    Nat.shiftRight_eq_div_pow id 40, Nat.shiftRight_eq_div_pow id 32,
    Nat.shiftRight_eq_div_pow id 24, Nat.shiftRight_eq_div_pow id 16,
    Nat.shiftRight_eq_div_pow id 8]
  unfold fromBytesVal
  rw [Nat.shiftLeft_eq, Nat.shiftLeft_eq, Nat.shiftLeft_eq, Nat.shiftLeft_eq,
    Nat.shiftLeft_eq, Nat.shiftLeft_eq, Nat.shiftLeft_eq]
  rw [Nat.mod_eq_of_lt (show id / 2 ^ 56 % 256 * 2 ^ 56 < 2 ^ 64 by omega),
    Nat.mod_eq_of_lt (show id / 2 ^ 48 % 256 * 2 ^ 48 < 2 ^ 64 by omega),
    Nat.mod_eq_of_lt (show id / 2 ^ 40 % 256 * 2 ^ 40 < 2 ^ 64 by omega),
    Nat.mod_eq_of_lt (show id / 2 ^ 32 % 256 * 2 ^ 32 < 2 ^ 64 by omega),
    Nat.mod_eq_of_lt (show id / 2 ^ 24 % 256 * 2 ^ 24 < 2 ^ 64 by omega),
    Nat.mod_eq_of_lt (show id / 2 ^ 16 % 256 * 2 ^ 16 < 2 ^ 64 by omega),
    Nat.mod_eq_of_lt (show id / 2 ^ 8 % 256 * 2 ^ 8 < 2 ^ 64 by omega),
    Nat.mod_eq_of_lt (show id % 256 < 2 ^ 64 by omega)]
  rw [lor_eq_add 56 (id / 2 ^ 56 % 256 * 2 ^ 56) (id / 2 ^ 48 % 256 * 2 ^ 48)
      (by omega) (by omega)]
  rw [lor_eq_add 48
      (id / 2 ^ 56 % 256 * 2 ^ 56 + id / 2 ^ 48 % 256 * 2 ^ 48)
      (id / 2 ^ 40 % 256 * 2 ^ 40) (by omega) (by omega)]
  rw [lor_eq_add 40
      (id / 2 ^ 56 % 256 * 2 ^ 56 + id / 2 ^ 48 % 256 * 2 ^ 48 +
        id / 2 ^ 40 % 256 * 2 ^ 40)
      (id / 2 ^ 32 % 256 * 2 ^ 32) (by omega) (by omega)]
  rw [lor_eq_add 32
      (id / 2 ^ 56 % 256 * 2 ^ 56 + id / 2 ^ 48 % 256 * 2 ^ 48 +
        id / 2 ^ 40 % 256 * 2 ^ 40 + id / 2 ^ 32 % 256 * 2 ^ 32)
      (id / 2 ^ 24 % 256 * 2 ^ 24) (by omega) (by omega)]
  rw [lor_eq_add 24
      (id / 2 ^ 56 % 256 * 2 ^ 56 + id / 2 ^ 48 % 256 * 2 ^ 48 +
        id / 2 ^ 40 % 256 * 2 ^ 40 + id / 2 ^ 32 % 256 * 2 ^ 32 +
        id / 2 ^ 24 % 256 * 2 ^ 24)
      (id / 2 ^ 16 % 256 * 2 ^ 16) (by omega) (by omega)]
  rw [lor_eq_add 16
      (id / 2 ^ 56 % 256 * 2 ^ 56 + id / 2 ^ 48 % 256 * 2 ^ 48 +
        id / 2 ^ 40 % 256 * 2 ^ 40 + id / 2 ^ 32 % 256 * 2 ^ 32 +
        id / 2 ^ 24 % 256 * 2 ^ 24 + id / 2 ^ 16 % 256 * 2 ^ 16)
      (id / 2 ^ 8 % 256 * 2 ^ 8) (by omega) (by omega)]
  rw [lor_eq_add 8
      (id / 2 ^ 56 % 256 * 2 ^ 56 + id / 2 ^ 48 % 256 * 2 ^ 48 +
        id / 2 ^ 40 % 256 * 2 ^ 40 + id / 2 ^ 32 % 256 * 2 ^ 32 +
        id / 2 ^ 24 % 256 * 2 ^ 24 + id / 2 ^ 16 % 256 * 2 ^ 16 +
        id / 2 ^ 8 % 256 * 2 ^ 8)
      (id % 256) (by omega) (by omega)]
  omega

/-- C2: For every 64-bit value, decoding the encoding round-trips
exactly: `FromString (ToString id) = ok id`, and the underlying byte
round-trip `FromBytes (ToBytes id) = some id` holds as well. -/
theorem fromString_toString (id : Nat) (h : id < 2 ^ 64) :
    FromString (ToString id) = .ok id ∧ FromBytes (ToBytes id) = some id := by
  have hdec : b64DecodeString (b64Encode (ToBytes id)) = some (ToBytes id) := by
    rw [show ToBytes id = [(id >>> 56) % 256, (id >>> 48) % 256,
      (id >>> 40) % 256, (id >>> 32) % 256, (id >>> 24) % 256,
      (id >>> 16) % 256, (id >>> 8) % 256, id % 256] from rfl]
    exact b64DecodeString_encode8 (Nat.mod_lt _ (by norm_num))
      (Nat.mod_lt _ (by norm_num)) (Nat.mod_lt _ (by norm_num))
      (Nat.mod_lt _ (by norm_num)) (Nat.mod_lt _ (by norm_num))
      (Nat.mod_lt _ (by norm_num)) (Nat.mod_lt _ (by norm_num))
      (Nat.mod_lt _ (by norm_num))
  constructor
  · show FromString (b64Encode (ToBytes id)) = .ok id
    unfold FromString
    rw [hdec]
    show DecodeResult.ok (fromBytesVal ((id >>> 56) % 256) ((id >>> 48) % 256)
      ((id >>> 40) % 256) ((id >>> 32) % 256) ((id >>> 24) % 256)
      ((id >>> 16) % 256) ((id >>> 8) % 256) (id % 256)) = .ok id
    rw [fromBytesVal_toBytes id h]
  · show some (fromBytesVal ((id >>> 56) % 256) ((id >>> 48) % 256)
      ((id >>> 40) % 256) ((id >>> 32) % 256) ((id >>> 24) % 256)
      ((id >>> 16) % 256) ((id >>> 8) % 256) (id % 256)) = some id
    rw [fromBytesVal_toBytes id h]

theorem fromString_toString_witness :
    FromString (ToString 0) = .ok 0 ∧
    FromString (ToString (2 ^ 64 - 1)) = .ok (2 ^ 64 - 1) :=
  ⟨(fromString_toString 0 (by norm_num)).1,
    (fromString_toString (2 ^ 64 - 1) (by norm_num)).1⟩

/-- C3 as stated is false: `"AAAAAAAAAAAAAAAA"` (sixteen `'A'`s, codes
65) is valid URL-safe base64 decoding to twelve bytes — not eight — yet
`FromString` succeeds with the value of the first eight bytes instead
of returning an error; and `"AAAA"` decodes to three bytes, on which
`FromString` hits an out-of-range index (a Go runtime panic), again not
an error return. -/
theorem fromString_wrong_length_counterexample :
    FromString [65, 65, 65, 65, 65, 65, 65, 65, 65, 65, 65, 65, 65, 65, 65, 65] =
      .ok 0 ∧
    FromString [65, 65, 65, 65] = .oob := by decide

/-- C3 (amended): `FromString` returns an error exactly when the string
is not valid URL-safe base64 (decode failure); when the string decodes
to fewer than eight bytes it panics with an index-out-of-range instead
of returning an error; and when it decodes to eight or more bytes it
succeeds, reading the first eight bytes (so on every exact 8-byte
decode it succeeds with their big-endian value, and extra bytes are
silently ignored). -/
theorem fromString_error_conditions (s : List Nat) :
    (FromString s = .err ↔ b64DecodeString s = none) ∧
    (∀ bs, b64DecodeString s = some bs →
      (bs.length < 8 → FromString s = .oob) ∧
      (∀ b0 b1 b2 b3 b4 b5 b6 b7 rest,
        bs = b0 :: b1 :: b2 :: b3 :: b4 :: b5 :: b6 :: b7 :: rest →
        FromString s = .ok (fromBytesVal b0 b1 b2 b3 b4 b5 b6 b7))) := by
  unfold FromString
  cases hd : b64DecodeString s with
  | none =>
    refine ⟨⟨fun _ => rfl, fun _ => rfl⟩, ?_⟩
    intro bs hbs
    exact Option.noConfusion hbs
  | some bs =>
    refine ⟨?_, ?_⟩
    · constructor
      · intro h
        rcases bs with _ | ⟨b0, _ | ⟨b1, _ | ⟨b2, _ | ⟨b3, _ | ⟨b4, _ |
          ⟨b5, _ | ⟨b6, _ | ⟨b7, rest⟩⟩⟩⟩⟩⟩⟩⟩ <;> simp_all
      · intro h
        exact Option.noConfusion h
    · intro bs' hbs'
      obtain rfl : bs = bs' := Option.some.inj hbs'
      constructor
      · intro hlen
        rcases bs with _ | ⟨b0, _ | ⟨b1, _ | ⟨b2, _ | ⟨b3, _ | ⟨b4, _ |
          ⟨b5, _ | ⟨b6, _ | ⟨b7, rest⟩⟩⟩⟩⟩⟩⟩⟩ <;> first
          | rfl
          | exact absurd hlen (by simp only [List.length_cons]; omega)
      · intro b0 b1 b2 b3 b4 b5 b6 b7 rest hsh
        subst hsh
        rfl

theorem fromString_error_conditions_witness :
    FromString [64] = .err ∧ b64DecodeString [64] = none :=
  ⟨(fromString_error_conditions [64]).1.mpr (by decide), by decide⟩

end GoFlake
